import Mathlib

/- Lean model of the results-ingestion and scoring logic of `fantasy_golf.py`
   (ryanhasch/fantasy-golf-streamlit).

   Modelling conventions:
   * Python dicts are association lists (`List (κ × α)`) with first-match
     lookup (`pyLookup`) and replace-first-or-append assignment (`pyInsert`),
     which reproduces CPython's ordered-dict semantics for the maps the
     program builds (keys are never duplicated).
   * Prize money (Python floats holding dollar amounts) is modelled as `Rat`;
     the program only ever adds and compares these values, so the embedding
     is exact on the inputs the program handles.
   * The closed set of league status strings
     ("scored" / "cut" / "wd" / "not_entered" / "unknown_absent")
     is the enumeration `LeagueStatus`.  Free-form status text coming from
     the outside (ESPN status fields, leaderboard status values) stays
     `String`, exactly as in the source.
   * A stored result entry is either a structured record or a bare legacy
     number (`Entry.legacy`), mirroring the `isinstance(entry, dict)`
     branches of `get_prize` / `get_status` / `apply_leaderboard_status`. -/

/-- Boolean test that `pat` is an initial segment of `l` (character lists). -/
def subAt : List Char → List Char → Bool
  | [], _ => true
  | _ :: _, [] => false
  | a :: as, b :: bs => a == b && subAt as bs

/-- Boolean test that `pat` occurs contiguously somewhere in `l`;
models Python's `pat in s` substring operator. -/
def hasSubAux (pat : List Char) : List Char → Bool
  | [] => subAt pat []
  | b :: bs => subAt pat (b :: bs) || hasSubAux pat bs

/-- Python's `pat in s` on strings. -/
def strHas (s pat : String) : Bool :=
  hasSubAux pat.toList s.toList

/-- Python's `str.lower` (ASCII case folding, which is all the source feeds it). -/
def pyLower (s : String) : String :=
  ⟨s.toList.map Char.toLower⟩

/-- ASCII whitespace, the characters Python's `str.strip()` removes here. -/
def isPySpace (c : Char) : Bool :=
  c == ' ' || c == '\t' || c == '\n' || c == '\r' || c == '\x0b' || c == '\x0c'

/-- Python's `str.strip()` with no argument. -/
def pyStrip (s : String) : String :=
  ⟨((s.toList.dropWhile isPySpace).reverse.dropWhile isPySpace).reverse⟩

/-- First-match lookup in an association list: Python's `d.get(k)`. -/
def pyLookup {κ α : Type} [DecidableEq κ] : List (κ × α) → κ → Option α
  | [], _ => none
  | p :: rest, k => if p.1 = k then some p.2 else pyLookup rest k

/-- Python's `d[k] = v`: replace the first binding of `k` in place,
or append a new binding at the end. -/
def pyInsert {κ α : Type} [DecidableEq κ] : List (κ × α) → κ → α → List (κ × α)
  | [], k, v => [(k, v)]
  | p :: rest, k, v => if p.1 = k then (k, v) :: rest else p :: pyInsert rest k v

/-- The closed set of league result statuses used by the program
(see the module docstring of `fantasy_golf.py`). -/
inductive LeagueStatus where
  | scored
  | cut
  | wd
  | not_entered
  | unknown_absent
deriving DecidableEq

/-- A structured result record `{"prize": ..., "status": ...}`. -/
structure ResultRec where
  prize : Rat
  status : LeagueStatus
deriving DecidableEq

/-- A stored per-golfer result: either the structured record or a bare
legacy prize number (old storage format). -/
inductive Entry where
  | dict : ResultRec → Entry
  | legacy : Rat → Entry
deriving DecidableEq

/-- Source `get_prize`: field access for dicts, identity for legacy numbers. -/
def get_prize : Entry → Rat
  | .dict r => r.prize
  | .legacy v => v

/-- Source `get_status`: field access for dicts, `"scored"` for legacy numbers. -/
def get_status : Entry → LeagueStatus
  | .dict r => r.status
  | .legacy _ => .scored

/-- The withdrawal/disqualification test of `espn_status_to_league_status`:
`s == "wd" or any(x in s for x in ("withdraw", "withdrew", "dq", "disqualif"))`. -/
def wdIndicator (s : String) : Bool :=
  s == "wd" || strHas s "withdraw" || strHas s "withdrew" || strHas s "dq"
    || strHas s "disqualif"

/-- The missed-cut test of `espn_status_to_league_status`:
`s == "cut" or any(x in s for x in ("mc", "mdf"))`. -/
def cutIndicator (s : String) : Bool :=
  s == "cut" || strHas s "mc" || strHas s "mdf"

/-- Source `espn_status_to_league_status(espn_status, prize)` (lines 457-468):
maps a free-form in-field status string to a league status.  The `prize`
argument is accepted and ignored, exactly as in the source. -/
def espn_status_to_league_status (espn_status : String) (_prize : Rat) : LeagueStatus :=
  let s := pyLower espn_status
  if wdIndicator s then .wd
  else if cutIndicator s then .cut
  else .scored

/-- A source player record as consumed by `build_results_from_espn`:
`prize`, `espn_status` and `status` model the presence/absence of the
corresponding dict keys (`p.get(...)`). -/
structure SrcPlayer where
  name : String
  position : Nat
  prize : Option Rat
  espn_status : Option String
  status : Option String
deriving DecidableEq

/-- Source expression `p.get("espn_status") or p.get("status", "")`:
Python `or` falls through on a missing key or an empty string. -/
def espn_status_field (p : SrcPlayer) : String :=
  match p.espn_status with
  | some s => if s = "" then p.status.getD "" else s
  | none => p.status.getD ""

/-- Source expression `p.get("prize") or payout_map.get(pos, 0.0)`:
Python `or` falls through on a missing key or a zero prize. -/
def espn_prize (payout_map : List (Nat × Rat)) (p : SrcPlayer) : Rat :=
  match p.prize with
  | some v => if v = 0 then (pyLookup payout_map p.position).getD 0 else v
  | none => (pyLookup payout_map p.position).getD 0

/-- The entry `build_results_from_espn` stores for one source player. -/
def espn_entry (payout_map : List (Nat × Rat)) (p : SrcPlayer) : Entry :=
  .dict ⟨espn_prize payout_map p,
    espn_status_to_league_status (espn_status_field p) (espn_prize payout_map p)⟩

/-- One iteration of the player loop in `build_results_from_espn`:
`results[p["name"]] = {"prize": prize, "status": ...}`. -/
def addPlayer (payout_map : List (Nat × Rat)) (acc : List (String × Entry))
    (p : SrcPlayer) : List (String × Entry) :=
  pyInsert acc p.name (espn_entry payout_map p)

/-- One iteration of the league-golfer loop in `build_results_from_espn`:
`if golfer not in results: results[golfer] = {"prize": 0, "status": "unknown_absent"}`. -/
def markAbsent (acc : List (String × Entry)) (golfer : String) : List (String × Entry) :=
  if (pyLookup acc golfer).isSome then acc
  else pyInsert acc golfer (.dict ⟨0, .unknown_absent⟩)

/-- Source `build_results_from_espn(players, payout_map, all_league_golfers)`
(lines 471-487): store every source player with its mapped status and
prize, then give every league golfer not present an
`{"prize": 0, "status": "unknown_absent"}` entry. -/
def build_results_from_espn (players : List SrcPlayer) (payout_map : List (Nat × Rat))
    (all_league_golfers : List String) : List (String × Entry) :=
  all_league_golfers.foldl markAbsent (players.foldl (addPlayer payout_map) [])

/-- Per-entry step of `apply_leaderboard_status` (lines 296-317): entries
that are not dicts or whose status is not `unknown_absent` are untouched;
otherwise the leaderboard status map decides the new status. -/
def lb_step (leaderboard_status_map : List (String × String)) (golfer : String) : Entry → Entry
  | .legacy v => .legacy v
  | .dict r =>
    if r.status ≠ .unknown_absent then .dict r
    else
      match pyLookup leaderboard_status_map golfer with
      | some s =>
        if s = "cut" then .dict ⟨r.prize, .cut⟩
        else if s = "wd" then .dict ⟨r.prize, .wd⟩
        else if s = "active" then .dict ⟨r.prize, .cut⟩
        else .dict ⟨r.prize, .not_entered⟩
      | none => .dict ⟨r.prize, .not_entered⟩

/-- Source `apply_leaderboard_status(results, leaderboard_status_map)`:
mutates entries in place and returns the same dict, so keys and order
are untouched. -/
def apply_leaderboard_status (results : List (String × Entry))
    (leaderboard_status_map : List (String × String)) : List (String × Entry) :=
  results.map (fun gp => (gp.1, lb_step leaderboard_status_map gp.1 gp.2))

/-- Digit-string value: `some` of the decimal value when the list is a
nonempty run of ASCII digits, `none` otherwise (Python `int` raising). -/
def digitsVal? (l : List Char) : Option Nat :=
  if !l.isEmpty && l.all Char.isDigit then
    some (l.foldl (fun acc c => acc * 10 + (c.toNat - 48)) 0)
  else none

/-- Python's `int(s)` on a stripped string: optional sign then digits. -/
def pyInt? (s : String) : Option Int :=
  match s.toList with
  | '+' :: rest => (digitsVal? rest).map (fun n => (n : Int))
  | '-' :: rest => (digitsVal? rest).map (fun n => -(n : Int))
  | l => (digitsVal? l).map (fun n => (n : Int))

/-- Source `_score_to_int(score_str)` (lines 320-328): `"E"`-style strings
are even par, otherwise parse an integer, otherwise the 9999 sentinel. -/
def score_to_int (s : String) : Int :=
  if pyStrip s = "E" ∨ pyStrip s = "e" ∨ pyStrip s = "EVEN" ∨ pyStrip s = "even"
      ∨ pyStrip s = "0" then 0
  else
    match pyInt? (pyStrip s) with
    | some n => n
    | none => 9999

/-- A score string that `_score_to_int` parses as a number (rather than
falling back to the sentinel). -/
def scoreNumeric (s : String) : Bool :=
  pyStrip s == "E" || pyStrip s == "e" || pyStrip s == "EVEN" || pyStrip s == "even"
    || pyStrip s == "0" || (pyInt? (pyStrip s)).isSome

/-- A live-feed competitor record as assembled by `fetch_espn_leaderboard`
right before the position re-derivation block (lines 417-425). -/
structure LivePlayer where
  name : String
  position : Nat
  position_display : String
  score : String
  score_int : Int
  espn_status : String
deriving DecidableEq

/-- Stable insertion step for `sortStable`: place `x` before the first
element whose key is not smaller. -/
def insertStable {α β : Type} [LinearOrder β] (key : α → β) (x : α) :
    List α → List α
  | [] => [x]
  | y :: ys => if key x ≤ key y then x :: y :: ys else y :: insertStable key x ys

/-- Stable ascending sort by a key, modelling Python's stable `list.sort(key=...)`
(stable sorts by one key agree extensionally, so insertion sort is a faithful
embedding of Timsort here; descending sorts use a negated key). -/
def sortStable {α β : Type} [LinearOrder β] (key : α → β) : List α → List α
  | [] => []
  | x :: xs => insertStable key x (sortStable key xs)

/-- Whether the next player in the sorted list ties `p`'s score
(the `active[i+1]["score_int"] == p["score_int"]` lookahead). -/
def nextTie (p : LivePlayer) : List LivePlayer → Bool
  | q :: _ => p.score_int == q.score_int
  | [] => false

/-- The display chosen for a player that starts a new position group:
`f"T{rank}"` when the next sorted player or the previous player ties its
score, else `str(rank)` (`tiePrev` holds the already-known-false previous
comparison of the source's `else` branch). -/
def freshDisp (p : LivePlayer) (rest : List LivePlayer) (tiePrev : Bool)
    (rank : Nat) : String :=
  if nextTie p rest || tiePrev then "T" ++ toString rank else toString rank

/-- The position-assignment loop of `fetch_espn_leaderboard` (lines 434-444)
over the score-sorted active players.  The accumulator carries the previous
player's `(score_int, position, position_display)` and the running rank;
a player tying the previous score copies its position and display, otherwise
it takes the current rank with a `T` marker when a neighbor ties it. -/
def assignLoop : Option (Int × Nat × String) → Nat → List LivePlayer → List LivePlayer
  | _, _, [] => []
  | some (ps, ppos, pdisp), rank, p :: rest =>
    if p.score_int = ps then
      { p with position := ppos, position_display := pdisp } ::
        assignLoop (some (ps, ppos, pdisp)) (rank + 1) rest
    else
      { p with position := rank, position_display := freshDisp p rest (p.score_int == ps) rank } ::
        assignLoop (some (p.score_int, rank, freshDisp p rest (p.score_int == ps) rank))
          (rank + 1) rest
  | none, rank, p :: rest =>
    { p with position := rank, position_display := freshDisp p rest false rank } ::
      assignLoop (some (p.score_int, rank, freshDisp p rest false rank)) (rank + 1) rest

/-- The active competitors, in feed order (`p["espn_status"] == "active"`). -/
def activeOf (players : List LivePlayer) : List LivePlayer :=
  players.filter (fun p => p.espn_status == "active")

/-- The active players sorted by ascending score with recomputed positions. -/
def assignedActive (players : List LivePlayer) : List LivePlayer :=
  assignLoop none 1 (sortStable (fun p => p.score_int) (activeOf players))

/-- The non-active (cut/WD) players, all placed at the shared bottom
position `len(active) + 1`, with `"CUT"`/`"WD"` standing in for an empty
position display (lines 446-451). -/
def bottomInactive (players : List LivePlayer) : List LivePlayer :=
  (players.filter (fun p => !(p.espn_status == "active"))).map (fun p =>
    { p with
      position := (activeOf players).length + 1,
      position_display :=
        if p.position_display = "" then
          (if p.espn_status == "cut" then "CUT" else "WD")
        else p.position_display })

/-- The position re-derivation block of `fetch_espn_leaderboard`
(lines 427-453): rank the active players by score, push cut/WD players
to one shared bottom position, and return actives followed by inactives. -/
def recompute_positions (players : List LivePlayer) : List LivePlayer :=
  assignedActive players ++ bottomInactive players

/-- A leading `T` on a position display, the tie marker. -/
def hasTMark (s : String) : Bool :=
  match s.toList with
  | 'T' :: _ => true
  | _ => false

/-- The `earnings` list comprehension of `get_team_earnings_for_tournament`:
roster golfers present in the results with a positive prize, in roster order. -/
def team_earnings_list (team_golfers : List String)
    (tournament_results : List (String × Entry)) : List (String × Rat) :=
  team_golfers.filterMap (fun g =>
    match pyLookup tournament_results g with
    | some e => if 0 < get_prize e then some (g, get_prize e) else none
    | none => none)

/-- The `top3` slice of `get_team_earnings_for_tournament`: the earnings list
stable-sorted descending by prize (Python `sort(key=..., reverse=True)`,
modelled by an ascending stable sort on the negated prize), truncated to 3. -/
def team_top3 (team_golfers : List String)
    (tournament_results : List (String × Entry)) : List (String × Rat) :=
  (sortStable (fun p => -p.2) (team_earnings_list team_golfers tournament_results)).take 3

/-- Source `get_team_earnings_for_tournament(team_golfers, tournament_results)`
(lines 491-496): keep roster golfers present in the results with a positive
prize, stable-sort descending by prize, and sum the top 3. -/
def get_team_earnings_for_tournament (team_golfers : List String)
    (tournament_results : List (String × Entry)) : Rat × List (String × Rat) :=
  (((team_top3 team_golfers tournament_results).map Prod.snd).sum,
    team_top3 team_golfers tournament_results)

/-- Position parsing in `scrape_pga_results_article` (lines 195-201):
strip every non-digit character and parse; an empty digit string leaves
the 999 sentinel. -/
def parse_position (pos_display : String) : Nat :=
  match digitsVal? (pos_display.toList.filter Char.isDigit) with
  | some n => n
  | none => 999

/-- Status classification in `scrape_pga_results_article` (lines 202-210):
case-insensitive substring tests on the position display, then the
prize/position fallback. -/
def classify_result_status (pos_display : String) (prize : Rat) (pos_int : Nat) :
    LeagueStatus :=
  let pdl := pyLower pos_display
  if strHas pdl "cut" || strHas pdl "mc" then .cut
  else if strHas pdl "wd" || strHas pdl "dq" || strHas pdl "w/d" || strHas pdl "disq" then .wd
  else if decide (0 < prize) || decide (pos_int < 999) then .scored
  else .cut

/-- Source `get_ordered_tournaments(data)` (lines 498-501): the stored
order list followed by every tournaments-map key not already in it. -/
def get_ordered_tournaments (tournament_order : List String) (all_t : List String) :
    List String :=
  tournament_order ++ all_t.filter (fun t => !(tournament_order.contains t))

-- ── Example data used by closed witness/counterexample theorems ──────────────

/-- Two golfers tied at a 500 prize. -/
def tieResults : List (String × Entry) :=
  [("A", .dict ⟨500, .scored⟩), ("B", .dict ⟨500, .scored⟩)]

/-- The spec's top-3 scenario: A and B tied at 500, C cut with no prize. -/
def scenarioResults : List (String × Entry) :=
  [("A", .dict ⟨500, .scored⟩), ("B", .dict ⟨500, .scored⟩), ("C", .dict ⟨0, .cut⟩)]

/-- A results map with one scored entry, four entries awaiting review and
one legacy bare-number entry. -/
def reviewResults : List (String × Entry) :=
  [("S", .dict ⟨750, .scored⟩),
   ("U1", .dict ⟨0, .unknown_absent⟩),
   ("U2", .dict ⟨0, .unknown_absent⟩),
   ("U3", .dict ⟨0, .unknown_absent⟩),
   ("U4", .dict ⟨0, .unknown_absent⟩),
   ("L", .legacy 250)]

/-- A field-status map resolving three of the four review entries. -/
def fieldStatusMap : List (String × String) :=
  [("U1", "cut"), ("U2", "wd"), ("U3", "active")]

/-- A fully resolved results map (no entry needs review). -/
def resolvedResults : List (String × Entry) :=
  [("S", .dict ⟨750, .scored⟩), ("K", .dict ⟨0, .cut⟩), ("L", .legacy 250)]

/-- A small live field: three active players (two tied at -10), one cut
and one withdrawn player, both with empty position displays. -/
def liveExample : List LivePlayer :=
  [⟨"P1", 999, "", "E", 0, "active"⟩,
   ⟨"P2", 999, "", "-10", -10, "active"⟩,
   ⟨"P3", 999, "", "-10", -10, "active"⟩,
   ⟨"P4", 999, "", "+3", 3, "cut"⟩,
   ⟨"P5", 999, "", "", 9999, "wd"⟩]

-- ── Association-list lemmas ──────────────────────────────────────────────────

theorem pyLookup_pyInsert_self {κ α : Type} [DecidableEq κ]
    (m : List (κ × α)) (k : κ) (v : α) :
    pyLookup (pyInsert m k v) k = some v := by
  induction m with
  | nil => simp [pyInsert, pyLookup]
  | cons p rest ih =>
    by_cases hp : p.1 = k
    · simp [pyInsert, hp, pyLookup]
    · simp [pyInsert, hp, pyLookup, ih]

theorem pyLookup_pyInsert_ne {κ α : Type} [DecidableEq κ]
    (m : List (κ × α)) (k k' : κ) (v : α) (h : k' ≠ k) :
    pyLookup (pyInsert m k v) k' = pyLookup m k' := by
  have hne : ¬ k = k' := fun hh => h hh.symm
  induction m with
  | nil => simp [pyInsert, pyLookup, hne]
  | cons p rest ih =>
    by_cases hp : p.1 = k
    · have hne' : ¬ p.1 = k' := by rw [hp]; exact hne
      simp [pyInsert, hp, pyLookup, hne, hne']
    · simp [pyInsert, hp, pyLookup, ih]

-- ── Lemmas about the two loops of build_results_from_espn ────────────────────

theorem addPlayer_fold_isSome (payout_map : List (Nat × Rat)) (players : List SrcPlayer)
    (init : List (String × Entry)) (k : String) :
    (pyLookup (players.foldl (addPlayer payout_map) init) k).isSome
      ↔ k ∈ players.map SrcPlayer.name ∨ (pyLookup init k).isSome := by
  induction players generalizing init with
  | nil => simp
  | cons p rest ih =>
    rw [List.foldl_cons, ih]
    by_cases hk : k = p.name
    · subst hk
      simp [addPlayer, pyLookup_pyInsert_self]
    · simp [addPlayer, pyLookup_pyInsert_ne _ _ _ _ hk, hk, or_assoc]

theorem addPlayer_fold_not_mem (payout_map : List (Nat × Rat)) (players : List SrcPlayer)
    (init : List (String × Entry)) (k : String) (h : k ∉ players.map SrcPlayer.name) :
    pyLookup (players.foldl (addPlayer payout_map) init) k = pyLookup init k := by
  induction players generalizing init with
  | nil => simp
  | cons p rest ih =>
    rw [List.map_cons, List.mem_cons, not_or] at h
    rw [List.foldl_cons, ih _ h.2, addPlayer, pyLookup_pyInsert_ne _ _ _ _ h.1]

theorem addPlayer_fold_mem (payout_map : List (Nat × Rat)) (players : List SrcPlayer)
    (init : List (String × Entry)) (hn : (players.map SrcPlayer.name).Nodup)
    (p : SrcPlayer) (hp : p ∈ players) :
    pyLookup (players.foldl (addPlayer payout_map) init) p.name
      = some (espn_entry payout_map p) := by
  induction players generalizing init with
  | nil => cases hp
  | cons q rest ih =>
    rw [List.map_cons, List.nodup_cons] at hn
    rcases List.mem_cons.1 hp with rfl | hmem
    · rw [List.foldl_cons,
        addPlayer_fold_not_mem payout_map rest (addPlayer payout_map init p) p.name hn.1,
        addPlayer, pyLookup_pyInsert_self]
    · rw [List.foldl_cons]
      exact ih _ hn.2 hmem

theorem markAbsent_lookup_isSome (init : List (String × Entry)) (g k : String) :
    (pyLookup (markAbsent init g) k).isSome ↔ k = g ∨ (pyLookup init k).isSome := by
  by_cases hg : (pyLookup init g).isSome
  · rw [markAbsent, if_pos hg]
    constructor
    · exact Or.inr
    · rintro (rfl | h)
      · exact hg
      · exact h
  · rw [markAbsent, if_neg hg]
    by_cases hk : k = g
    · subst hk
      simp [pyLookup_pyInsert_self]
    · simp [pyLookup_pyInsert_ne _ _ _ _ hk, hk]

theorem markAbsent_fold_isSome (roster : List String) (init : List (String × Entry))
    (k : String) :
    (pyLookup (roster.foldl markAbsent init) k).isSome
      ↔ k ∈ roster ∨ (pyLookup init k).isSome := by
  induction roster generalizing init with
  | nil => simp
  | cons g rest ih =>
    rw [List.foldl_cons, ih, markAbsent_lookup_isSome]
    simp only [List.mem_cons]
    tauto

theorem markAbsent_fold_some (roster : List String) (init : List (String × Entry))
    (k : String) (v : Entry) (h : pyLookup init k = some v) :
    pyLookup (roster.foldl markAbsent init) k = some v := by
  induction roster generalizing init with
  | nil => exact h
  | cons g rest ih =>
    rw [List.foldl_cons]
    refine ih _ ?_
    by_cases hs : (pyLookup init g).isSome
    · rw [markAbsent, if_pos hs]; exact h
    · rw [markAbsent, if_neg hs]
      by_cases hk : k = g
      · subst hk; rw [h] at hs; exact absurd rfl hs
      · rw [pyLookup_pyInsert_ne _ _ _ _ hk]; exact h

theorem markAbsent_fold_absent (roster : List String) (init : List (String × Entry))
    (g : String) (hg : g ∈ roster) (h : pyLookup init g = none) :
    pyLookup (roster.foldl markAbsent init) g = some (.dict ⟨0, .unknown_absent⟩) := by
  induction roster generalizing init with
  | nil => cases hg
  | cons r rest ih =>
    rw [List.foldl_cons]
    by_cases hr : g = r
    · subst hr
      have hnone : ¬ (pyLookup init g).isSome := by simp [h]
      rw [markAbsent, if_neg hnone] at *
      exact markAbsent_fold_some rest _ g _ (pyLookup_pyInsert_self init g _)
    · rcases List.mem_cons.1 hg with h' | hmem
      · exact absurd h' hr
      · refine ih _ hmem ?_
        by_cases hs : (pyLookup init r).isSome
        · rw [markAbsent, if_pos hs]; exact h
        · rw [markAbsent, if_neg hs, pyLookup_pyInsert_ne _ _ _ _ hr]; exact h

-- ── Stable sort lemmas ───────────────────────────────────────────────────────

theorem insertStable_perm {α β : Type} [LinearOrder β] (key : α → β) (x : α)
    (l : List α) : (insertStable key x l).Perm (x :: l) := by
  induction l with
  | nil => exact List.Perm.refl _
  | cons y ys ih =>
    by_cases h : key x ≤ key y
    · rw [insertStable, if_pos h]
    · rw [insertStable, if_neg h]
      exact (ih.cons y).trans (List.Perm.swap x y ys)

theorem sortStable_perm {α β : Type} [LinearOrder β] (key : α → β) (l : List α) :
    (sortStable key l).Perm l := by
  induction l with
  | nil => exact List.Perm.refl _
  | cons x xs ih =>
    exact (insertStable_perm key x (sortStable key xs)).trans (ih.cons x)

theorem insertStable_pairwise {α β : Type} [LinearOrder β] (key : α → β) (x : α)
    (l : List α) (h : l.Pairwise (fun a b => key a ≤ key b)) :
    (insertStable key x l).Pairwise (fun a b => key a ≤ key b) := by
  induction l with
  | nil => simp [insertStable]
  | cons y ys ih =>
    rw [List.pairwise_cons] at h
    by_cases hxy : key x ≤ key y
    · rw [insertStable, if_pos hxy, List.pairwise_cons]
      refine ⟨?_, List.pairwise_cons.2 h⟩
      intro z hz
      rcases List.mem_cons.1 hz with rfl | hz'
      · exact hxy
      · exact le_trans hxy (h.1 z hz')
    · rw [insertStable, if_neg hxy, List.pairwise_cons]
      refine ⟨?_, ih h.2⟩
      intro z hz
      have hz2 : z ∈ x :: ys := (insertStable_perm key x ys).mem_iff.1 hz
      rcases List.mem_cons.1 hz2 with rfl | hz'
      · exact le_of_not_le hxy
      · exact h.1 z hz'

theorem sortStable_pairwise {α β : Type} [LinearOrder β] (key : α → β) (l : List α) :
    (sortStable key l).Pairwise (fun a b => key a ≤ key b) := by
  induction l with
  | nil => simp [sortStable]
  | cons x xs ih => exact insertStable_pairwise key x _ ih

theorem sortStable_map_key_eq {α β : Type} [LinearOrder β] (key : α → β)
    {l₁ l₂ : List α} (h : l₁.Perm l₂) :
    (sortStable key l₁).map key = (sortStable key l₂).map key := by
  have hp : ((sortStable key l₁).map key).Perm ((sortStable key l₂).map key) :=
    ((sortStable_perm key l₁).trans (h.trans (sortStable_perm key l₂).symm)).map key
  have hs₁ : ((sortStable key l₁).map key).Pairwise (· ≤ ·) :=
    List.pairwise_map.2 (sortStable_pairwise key l₁)
  have hs₂ : ((sortStable key l₂).map key).Pairwise (· ≤ ·) :=
    List.pairwise_map.2 (sortStable_pairwise key l₂)
  exact List.eq_of_perm_of_sorted hp hs₁ hs₂

-- ── Lemmas about apply_leaderboard_status ────────────────────────────────────

theorem pyLookup_map_snd {κ α : Type} [DecidableEq κ] (f : κ → α → α)
    (l : List (κ × α)) (k : κ) :
    pyLookup (l.map (fun gp => (gp.1, f gp.1 gp.2))) k = (pyLookup l k).map (f k) := by
  induction l with
  | nil => simp [pyLookup]
  | cons p rest ih =>
    by_cases hp : p.1 = k
    · subst hp
      simp [pyLookup, ih]
    · simp [pyLookup, hp, ih]

theorem apply_lookup (results : List (String × Entry)) (lb : List (String × String))
    (k : String) :
    pyLookup (apply_leaderboard_status results lb) k
      = (pyLookup results k).map (lb_step lb k) := by
  rw [apply_leaderboard_status]
  exact pyLookup_map_snd (lb_step lb) results k

theorem apply_map_fst (results : List (String × Entry)) (lb : List (String × String)) :
    (apply_leaderboard_status results lb).map Prod.fst = results.map Prod.fst := by
  induction results with
  | nil => rfl
  | cons p rest ih =>
    simp only [apply_leaderboard_status, List.map_cons, List.map_map] at ih ⊢
    rw [ih]

theorem lb_step_of_status_ne (lb : List (String × String)) (g : String) (e : Entry)
    (h : get_status e ≠ .unknown_absent) : lb_step lb g e = e := by
  cases e with
  | legacy v => rfl
  | dict r =>
    rw [lb_step, if_pos]
    simpa [get_status] using h

theorem lb_step_status_ne (lb : List (String × String)) (g : String) (e : Entry) :
    get_status (lb_step lb g e) ≠ .unknown_absent := by
  cases e with
  | legacy v => simp [lb_step, get_status]
  | dict r =>
    by_cases h : r.status = LeagueStatus.unknown_absent
    · rw [lb_step, if_neg (by simpa using h)]
      cases pyLookup lb g with
      | none => simp [get_status]
      | some s =>
        dsimp only
        split_ifs <;> simp [get_status]
    · rw [lb_step, if_pos (by simpa using h)]
      simpa [get_status] using h

theorem lb_step_idem (lb : List (String × String)) (g : String) (e : Entry) :
    lb_step lb g (lb_step lb g e) = lb_step lb g e :=
  lb_step_of_status_ne lb g _ (lb_step_status_ne lb g e)

theorem lb_step_unknown (lb : List (String × String)) (g : String) (r : ResultRec)
    (hs : r.status = .unknown_absent) :
    lb_step lb g (.dict r) =
      match pyLookup lb g with
      | some s =>
        if s = "cut" then .dict ⟨r.prize, .cut⟩
        else if s = "wd" then .dict ⟨r.prize, .wd⟩
        else if s = "active" then .dict ⟨r.prize, .cut⟩
        else .dict ⟨r.prize, .not_entered⟩
      | none => .dict ⟨r.prize, .not_entered⟩ := by
  rw [lb_step, if_neg (by simpa using hs)]

-- ── Claim theorems ───────────────────────────────────────────────────────────

/-- C1: the spec invariant `status ∈ {cut, wd, not_entered, unknown_absent} ⟹
prize == 0` fails on the code: `build_results_from_espn` looks the prize up
in the payout map independently of the status, so a cut player whose
position appears in the payout map is stored as cut with a positive prize.
This theorem evaluates the pipeline at such a failing input. -/
theorem c1_cut_entry_gets_payout_prize :
    pyLookup (build_results_from_espn
        [⟨"X", 5, none, some "cut", none⟩] [(5, 100)] []) "X"
      = some (.dict ⟨100, .cut⟩) ∧ (0 : Rat) < 100 := by
  exact ⟨by decide, by norm_num⟩

/-- C2 counterexample: the claim says the prize is the player's explicit
prize whenever one is present, but Python's `or` treats an explicit prize
of `0.0` as absent, so the payout-map value (here 100) is used instead. -/
theorem c2_counterexample_zero_prize_falls_through :
    pyLookup (build_results_from_espn
        [⟨"X", 5, some 0, some "active", none⟩] [(5, 100)] []) "X"
      = some (.dict ⟨100, .scored⟩) ∧ (100 : Rat) ≠ 0 := by
  exact ⟨by decide, by norm_num⟩

/-- C2 (amended): for each source player the stored entry has
prize = the explicit prize when present and nonzero, else the payout-map
value at the player's position defaulting to 0; and the status comes from
the in-field status alone (wd-indicators ↦ wd, else cut-indicators ↦ cut,
else scored) — the prize argument never influences the classification. -/
theorem c2_amended_build_entry (players : List SrcPlayer)
    (payout_map : List (Nat × Rat)) (roster : List String)
    (hn : (players.map SrcPlayer.name).Nodup) (p : SrcPlayer) (hp : p ∈ players) :
    pyLookup (build_results_from_espn players payout_map roster) p.name
      = some (.dict ⟨espn_prize payout_map p,
          espn_status_to_league_status (espn_status_field p) (espn_prize payout_map p)⟩) ∧
    (∀ v, p.prize = some v → v ≠ 0 → espn_prize payout_map p = v) ∧
    ((p.prize = none ∨ p.prize = some 0) →
      espn_prize payout_map p = (pyLookup payout_map p.position).getD 0) ∧
    (∀ s pr₁ pr₂, espn_status_to_league_status s pr₁ = espn_status_to_league_status s pr₂) ∧
    (∀ s pr, wdIndicator (pyLower s) = true → espn_status_to_league_status s pr = .wd) ∧
    (∀ s pr, wdIndicator (pyLower s) = false → cutIndicator (pyLower s) = true →
      espn_status_to_league_status s pr = .cut) ∧
    (∀ s pr, wdIndicator (pyLower s) = false → cutIndicator (pyLower s) = false →
      espn_status_to_league_status s pr = .scored) := by
  refine ⟨?_, ?_, ?_, fun s pr₁ pr₂ => rfl, ?_, ?_, ?_⟩
  · rw [build_results_from_espn]
    exact markAbsent_fold_some roster _ _ _ (addPlayer_fold_mem payout_map players [] hn p hp)
  · intro v hv hv0
    rw [espn_prize, hv]
    simp [hv0]
  · rintro (hv | hv) <;> rw [espn_prize, hv] <;> simp
  · intro s pr h
    simp [espn_status_to_league_status, h]
  · intro s pr h₁ h₂
    simp [espn_status_to_league_status, h₁, h₂]
  · intro s pr h₁ h₂
    simp [espn_status_to_league_status, h₁, h₂]

/-- C2 witness: a player with an explicit nonzero prize keeps it and is
stored as scored. -/
theorem c2_amended_build_entry_witness :
    pyLookup (build_results_from_espn
        [⟨"A", 1, some 1800000, some "active", none⟩] [] []) "A"
      = some (.dict ⟨1800000, .scored⟩) := by
  rw [(c2_amended_build_entry [⟨"A", 1, some 1800000, some "active", none⟩] [] []
      (by decide) ⟨"A", 1, some 1800000, some "active", none⟩ (by decide)).1]
  decide

/-- C5: the map built by `build_results_from_espn` has exactly the source
player names plus the league roster as keys, and every roster golfer absent
from the source players gets the `{"prize": 0, "status": "unknown_absent"}`
review entry (never a silent `not_entered`). -/
theorem c5_build_covers_union (players : List SrcPlayer)
    (payout_map : List (Nat × Rat)) (roster : List String) :
    (∀ k, (pyLookup (build_results_from_espn players payout_map roster) k).isSome
        ↔ (k ∈ players.map SrcPlayer.name ∨ k ∈ roster)) ∧
    (∀ g, g ∈ roster → g ∉ players.map SrcPlayer.name →
      pyLookup (build_results_from_espn players payout_map roster) g
        = some (.dict ⟨0, .unknown_absent⟩)) := by
  constructor
  · intro k
    rw [build_results_from_espn, markAbsent_fold_isSome, addPlayer_fold_isSome]
    simp only [pyLookup, Option.isSome_none, Bool.false_eq_true, or_false]
    tauto
  · intro g hg hnp
    rw [build_results_from_espn]
    refine markAbsent_fold_absent roster _ g hg ?_
    rw [addPlayer_fold_not_mem payout_map players [] g hnp]
    rfl

/-- C5 witness: the spec scenario — league golfer "D" absent from the
imported players is marked for review, not silently `not_entered`. -/
theorem c5_build_covers_union_witness :
    pyLookup (build_results_from_espn
        [⟨"A", 1, some 1800000, some "active", none⟩] [] ["D"]) "D"
      = some (.dict ⟨0, .unknown_absent⟩) :=
  (c5_build_covers_union [⟨"A", 1, some 1800000, some "active", none⟩] [] ["D"]).2
    "D" (by decide) (by decide)

/-- C6: `apply_leaderboard_status` rewrites exactly the `unknown_absent`
entries — field-status cut ↦ cut, wd ↦ wd, active ↦ cut, absent from the
field-status map ↦ not_entered — keeps every other entry unchanged (prize
and status), and neither adds nor removes keys. -/
theorem c6_apply_field_status_cases (results : List (String × Entry))
    (lb : List (String × String)) :
    ((apply_leaderboard_status results lb).map Prod.fst = results.map Prod.fst) ∧
    (∀ g e, pyLookup results g = some e → get_status e ≠ .unknown_absent →
      pyLookup (apply_leaderboard_status results lb) g = some e) ∧
    (∀ g r, pyLookup results g = some (.dict r) → r.status = .unknown_absent →
      ((pyLookup lb g = some "cut" →
         pyLookup (apply_leaderboard_status results lb) g = some (.dict ⟨r.prize, .cut⟩)) ∧
       (pyLookup lb g = some "wd" →
         pyLookup (apply_leaderboard_status results lb) g = some (.dict ⟨r.prize, .wd⟩)) ∧
       (pyLookup lb g = some "active" →
         pyLookup (apply_leaderboard_status results lb) g = some (.dict ⟨r.prize, .cut⟩)) ∧
       (pyLookup lb g = none →
         pyLookup (apply_leaderboard_status results lb) g
           = some (.dict ⟨r.prize, .not_entered⟩)))) := by
  refine ⟨apply_map_fst results lb, ?_, ?_⟩
  · intro g e hl hs
    rw [apply_lookup, hl]
    exact congrArg some (lb_step_of_status_ne lb g e hs)
  · intro g r hl hs
    have key : pyLookup (apply_leaderboard_status results lb) g
        = some (lb_step lb g (.dict r)) := by
      rw [apply_lookup, hl]
      rfl
    refine ⟨?_, ?_, ?_, ?_⟩ <;> intro hlb <;>
      rw [key, lb_step_unknown lb g r hs, hlb] <;> simp

/-- C6 witness: on a concrete review map, the three field statuses and the
absent case resolve as claimed, and a scored entry is untouched. -/
theorem c6_apply_field_status_cases_witness :
    pyLookup (apply_leaderboard_status reviewResults fieldStatusMap) "U1"
      = some (.dict ⟨0, .cut⟩) ∧
    pyLookup (apply_leaderboard_status reviewResults fieldStatusMap) "U2"
      = some (.dict ⟨0, .wd⟩) ∧
    pyLookup (apply_leaderboard_status reviewResults fieldStatusMap) "U3"
      = some (.dict ⟨0, .cut⟩) ∧
    pyLookup (apply_leaderboard_status reviewResults fieldStatusMap) "U4"
      = some (.dict ⟨0, .not_entered⟩) ∧
    pyLookup (apply_leaderboard_status reviewResults fieldStatusMap) "S"
      = some (.dict ⟨750, .scored⟩) :=
  ⟨((c6_apply_field_status_cases reviewResults fieldStatusMap).2.2 "U1"
      ⟨0, .unknown_absent⟩ (by decide) rfl).1 (by decide),
   ((c6_apply_field_status_cases reviewResults fieldStatusMap).2.2 "U2"
      ⟨0, .unknown_absent⟩ (by decide) rfl).2.1 (by decide),
   ((c6_apply_field_status_cases reviewResults fieldStatusMap).2.2 "U3"
      ⟨0, .unknown_absent⟩ (by decide) rfl).2.2.1 (by decide),
   ((c6_apply_field_status_cases reviewResults fieldStatusMap).2.2 "U4"
      ⟨0, .unknown_absent⟩ (by decide) rfl).2.2.2 (by decide),
   (c6_apply_field_status_cases reviewResults fieldStatusMap).2.1 "S"
      (.dict ⟨750, .scored⟩) (by decide) (by decide)⟩

/-- C7: applying `apply_leaderboard_status` to a results map with no
`unknown_absent` entry changes nothing, and a second application with the
same field-status map is always a no-op. -/
theorem c7_apply_noop_idempotent (results : List (String × Entry))
    (lb : List (String × String)) :
    ((∀ gp ∈ results, get_status gp.2 ≠ LeagueStatus.unknown_absent) →
      apply_leaderboard_status results lb = results) ∧
    apply_leaderboard_status (apply_leaderboard_status results lb) lb
      = apply_leaderboard_status results lb := by
  constructor
  · intro h
    rw [apply_leaderboard_status]
    have hstep : ∀ gp ∈ results, (gp.1, lb_step lb gp.1 gp.2) = gp := by
      intro gp hgp
      rw [lb_step_of_status_ne lb gp.1 gp.2 (h gp hgp)]
    rw [List.map_congr_left hstep]
    exact List.map_id' results
  · induction results with
    | nil => rfl
    | cons p rest ih =>
      simp only [apply_leaderboard_status, List.map_cons, List.map_map] at ih ⊢
      rw [lb_step_idem, ih]

/-- C7 witness: a fully resolved map (scored, cut and legacy entries only)
is untouched by reconciliation. -/
theorem c7_apply_noop_idempotent_witness :
    (∀ gp ∈ resolvedResults, get_status gp.2 ≠ LeagueStatus.unknown_absent) ∧
    apply_leaderboard_status resolvedResults fieldStatusMap = resolvedResults :=
  ⟨by decide, (c7_apply_noop_idempotent resolvedResults fieldStatusMap).1 (by decide)⟩

/-- C3 counterexample: the claim asserts the full return value (total and
contributing list) is invariant under roster permutation, but with prizes
tied at 500 the stable sort keeps roster order, so the contributing lists
of rosters `["A", "B"]` and `["B", "A"]` differ. -/
theorem c3_counterexample_tie_order :
    (["A", "B"] : List String).Perm ["B", "A"] ∧
    get_team_earnings_for_tournament ["A", "B"] tieResults
      ≠ get_team_earnings_for_tournament ["B", "A"] tieResults := by
  refine ⟨List.Perm.swap "B" "A" [], ?_⟩
  intro h
  have hne : (get_team_earnings_for_tournament ["A", "B"] tieResults).2
      ≠ (get_team_earnings_for_tournament ["B", "A"] tieResults).2 := by decide
  exact hne (congrArg Prod.snd h)

/-- C3 (amended): under roster permutation `get_team_earnings_for_tournament`
returns the same total and the same list of contributing prize values; only
the pairing of tied prizes with golfer names can differ. -/
theorem c3_amended_perm_invariant (results : List (String × Entry))
    (team₁ team₂ : List String) (h : team₁.Perm team₂) :
    (get_team_earnings_for_tournament team₁ results).1
      = (get_team_earnings_for_tournament team₂ results).1 ∧
    (get_team_earnings_for_tournament team₁ results).2.map Prod.snd
      = (get_team_earnings_for_tournament team₂ results).2.map Prod.snd := by
  have hperm : (team_earnings_list team₁ results).Perm (team_earnings_list team₂ results) :=
    h.filterMap _
  have hkey := sortStable_map_key_eq (fun p : String × Rat => -p.2) hperm
  have hsnd : ∀ l : List (String × Rat),
      l.map Prod.snd = (l.map (fun p : String × Rat => -p.2)).map (fun x => -x) := by
    intro l
    rw [List.map_map]
    exact (List.map_congr_left (fun p _ => (neg_neg p.2).symm))
  have hs : (sortStable (fun p : String × Rat => -p.2)
        (team_earnings_list team₁ results)).map Prod.snd
      = (sortStable (fun p : String × Rat => -p.2)
        (team_earnings_list team₂ results)).map Prod.snd := by
    rw [hsnd, hsnd, hkey]
  have htake : (team_top3 team₁ results).map Prod.snd
      = (team_top3 team₂ results).map Prod.snd := by
    rw [team_top3, team_top3, List.map_take, List.map_take, hs]
  exact ⟨by rw [get_team_earnings_for_tournament, get_team_earnings_for_tournament, htake],
    htake⟩

/-- C3 witness: on a concrete permuted pair of rosters the total and the
prize-value list agree. -/
theorem c3_amended_perm_invariant_witness :
    (get_team_earnings_for_tournament ["A", "B"] tieResults).1
      = (get_team_earnings_for_tournament ["B", "A"] tieResults).1 :=
  (c3_amended_perm_invariant tieResults ["A", "B"] ["B", "A"]
    (List.Perm.swap "B" "A" [])).1

/-- C4: `get_team_earnings_for_tournament` returns at most 3 contributing
pairs, each a roster golfer found in the results with a positive prize,
sorted descending by prize; the total is the sum of the returned prizes;
and on the spec scenario (A and B at 500, C cut at 0) it returns 1000 with
exactly A and B contributing. -/
theorem c4_team_earnings_top3 (team : List String) (results : List (String × Entry)) :
    (get_team_earnings_for_tournament team results).2.length ≤ 3 ∧
    (∀ q ∈ (get_team_earnings_for_tournament team results).2,
      q.1 ∈ team ∧ (∃ e, pyLookup results q.1 = some e ∧ q.2 = get_prize e) ∧ 0 < q.2) ∧
    (get_team_earnings_for_tournament team results).2.Pairwise (fun a b => b.2 ≤ a.2) ∧
    (get_team_earnings_for_tournament team results).1
      = ((get_team_earnings_for_tournament team results).2.map Prod.snd).sum ∧
    get_team_earnings_for_tournament ["A", "B", "C"] scenarioResults
      = (1000, [("A", 500), ("B", 500)]) := by
  refine ⟨?_, ?_, ?_, rfl, ?_⟩
  · rw [get_team_earnings_for_tournament, team_top3]
    rw [List.length_take]
    exact Nat.min_le_left _ _
  · intro q hq
    rw [get_team_earnings_for_tournament] at hq
    have hq1 : q ∈ sortStable (fun p : String × Rat => -p.2)
        (team_earnings_list team results) :=
      List.take_subset 3 _ hq
    have hq2 : q ∈ team_earnings_list team results :=
      (sortStable_perm _ _).mem_iff.1 hq1
    rw [team_earnings_list, List.mem_filterMap] at hq2
    obtain ⟨g, hg, hfg⟩ := hq2
    cases hlk : pyLookup results g with
    | none => rw [hlk] at hfg; cases hfg
    | some e =>
      rw [hlk] at hfg
      dsimp only at hfg
      by_cases hpz : 0 < get_prize e
      · rw [if_pos hpz] at hfg
        obtain rfl := Option.some.inj hfg
        exact ⟨hg, ⟨e, hlk, rfl⟩, hpz⟩
      · rw [if_neg hpz] at hfg; cases hfg
  · rw [get_team_earnings_for_tournament, team_top3]
    have hp := sortStable_pairwise (fun p : String × Rat => -p.2)
      (team_earnings_list team results)
    have hp2 : (sortStable (fun p : String × Rat => -p.2)
        (team_earnings_list team results)).Pairwise (fun a b => b.2 ≤ a.2) :=
      hp.imp (fun hab => by simpa using hab)
    exact hp2.sublist (List.take_sublist 3 _)
  · have h2 : (get_team_earnings_for_tournament ["A", "B", "C"] scenarioResults).2
        = [("A", 500), ("B", 500)] := by decide
    have h1 : (get_team_earnings_for_tournament ["A", "B", "C"] scenarioResults).1
        = 1000 := by
      show ((team_top3 ["A", "B", "C"] scenarioResults).map Prod.snd).sum = 1000
      have h2' : team_top3 ["A", "B", "C"] scenarioResults = [("A", 500), ("B", 500)] := h2
      rw [h2']
      norm_num [List.sum_cons, List.sum_nil]
    exact Prod.ext h1 h2

/-- C4 witness: in the scenario the pair ("A", 500) contributes, and the
contract facts hold for it. -/
theorem c4_team_earnings_top3_witness :
    ("A", (500 : Rat)) ∈ (get_team_earnings_for_tournament ["A", "B", "C"] scenarioResults).2 ∧
    ("A" ∈ ["A", "B", "C"] ∧
      (∃ e, pyLookup scenarioResults "A" = some e ∧ (500 : Rat) = get_prize e) ∧
      (0 : Rat) < 500) :=
  ⟨by decide,
    (c4_team_earnings_top3 ["A", "B", "C"] scenarioResults).2.1 ("A", 500) (by decide)⟩

/-- C9: the results-article scraper classifies a row from the position
display case-insensitively — cut/mc substrings give cut; otherwise
wd/dq/w/d/disq substrings give wd; otherwise scored when the prize is
positive or a numeric position was parsed; otherwise cut — and the spec
scenario (A at "1", B at "T2", C at "CUT") classifies as scored, scored, cut. -/
theorem c9_article_status_classification :
    (∀ pd prize pos_int,
      (strHas (pyLower pd) "cut" || strHas (pyLower pd) "mc") = true →
      classify_result_status pd prize pos_int = .cut) ∧
    (∀ pd prize pos_int,
      (strHas (pyLower pd) "cut" || strHas (pyLower pd) "mc") = false →
      (strHas (pyLower pd) "wd" || strHas (pyLower pd) "dq"
        || strHas (pyLower pd) "w/d" || strHas (pyLower pd) "disq") = true →
      classify_result_status pd prize pos_int = .wd) ∧
    (∀ pd prize pos_int,
      (strHas (pyLower pd) "cut" || strHas (pyLower pd) "mc") = false →
      (strHas (pyLower pd) "wd" || strHas (pyLower pd) "dq"
        || strHas (pyLower pd) "w/d" || strHas (pyLower pd) "disq") = false →
      (0 < prize ∨ pos_int < 999) →
      classify_result_status pd prize pos_int = .scored) ∧
    (∀ pd prize pos_int,
      (strHas (pyLower pd) "cut" || strHas (pyLower pd) "mc") = false →
      (strHas (pyLower pd) "wd" || strHas (pyLower pd) "dq"
        || strHas (pyLower pd) "w/d" || strHas (pyLower pd) "disq") = false →
      ¬ 0 < prize → ¬ pos_int < 999 →
      classify_result_status pd prize pos_int = .cut) ∧
    (classify_result_status "1" 1800000 (parse_position "1") = .scored ∧
      parse_position "1" = 1 ∧
      classify_result_status "T2" 1080000 (parse_position "T2") = .scored ∧
      parse_position "T2" = 2 ∧
      classify_result_status "CUT" 0 (parse_position "CUT") = .cut) := by
  refine ⟨?_, ?_, ?_, ?_, by decide⟩
  · intro pd prize pos_int h
    simp [classify_result_status, h]
  · intro pd prize pos_int h₁ h₂
    simp [classify_result_status, h₁, h₂]
  · intro pd prize pos_int h₁ h₂ h₃
    rcases h₃ with h₃ | h₃ <;> simp [classify_result_status, h₁, h₂, h₃]
  · intro pd prize pos_int h₁ h₂ h₃ h₄
    simp [classify_result_status, h₁, h₂, h₃, h₄]

/-- C9 witness: concrete rows exercising the cut, wd and default branches. -/
theorem c9_article_status_classification_witness :
    classify_result_status "MC" 0 999 = .cut ∧
    classify_result_status "W/D" 0 999 = .wd ∧
    classify_result_status "64" 0 (parse_position "64") = .scored ∧
    classify_result_status "—" 0 999 = .cut :=
  ⟨(c9_article_status_classification).1 "MC" 0 999 (by decide),
   (c9_article_status_classification).2.1 "W/D" 0 999 (by decide) (by decide),
   (c9_article_status_classification).2.2.1 "64" 0 (parse_position "64")
     (by decide) (by decide) (Or.inr (by decide)),
   (c9_article_status_classification).2.2.2.1 "—" 0 999 (by decide) (by decide)
     (by norm_num) (by decide)⟩

/-- C10: `get_ordered_tournaments` starts with the stored order and then
appends the remaining tournament keys, so every stored tournament appears,
and exactly once when the stored order has no duplicates (tournament-map
keys are unique by construction, modelled by the `all_t.Nodup` hypothesis). -/
theorem c10_ordered_tournaments_cover (tournament_order all_t : List String) :
    ((get_ordered_tournaments tournament_order all_t).take tournament_order.length
      = tournament_order) ∧
    (∀ t ∈ all_t, t ∈ get_ordered_tournaments tournament_order all_t) ∧
    (tournament_order.Nodup → all_t.Nodup → ∀ t ∈ all_t,
      (get_ordered_tournaments tournament_order all_t).count t = 1) := by
  refine ⟨List.take_left _ _, ?_, ?_⟩
  · intro t ht
    rw [get_ordered_tournaments, List.mem_append]
    by_cases ho : t ∈ tournament_order
    · exact Or.inl ho
    · refine Or.inr (List.mem_filter.2 ⟨ht, ?_⟩)
      simp [ho]
  · intro hno hna t ht
    rw [get_ordered_tournaments, List.count_append]
    by_cases ho : t ∈ tournament_order
    · have hz : (all_t.filter (fun u => !(tournament_order.contains u))).count t = 0 := by
        refine List.count_eq_zero.2 ?_
        intro hmem
        rw [List.mem_filter] at hmem
        have h2 : t ∉ tournament_order := by simpa using hmem.2
        exact h2 ho
      rw [List.count_eq_one_of_mem hno ho, hz]
    · have hmemf : t ∈ all_t.filter (fun u => !(tournament_order.contains u)) :=
        List.mem_filter.2 ⟨ht, by simpa using ho⟩
      rw [List.count_eq_zero.2 ho, List.count_eq_one_of_mem (hna.filter _) hmemf]

/-- C10 witness: a store whose order list misses one saved tournament still
lists every tournament exactly once. -/
theorem c10_ordered_tournaments_cover_witness :
    ("Y" ∈ get_ordered_tournaments ["X"] ["X", "Y"]) ∧
    (get_ordered_tournaments ["X"] ["X", "Y"]).count "Y" = 1 ∧
    (get_ordered_tournaments ["X"] ["X", "Y"]).count "X" = 1 :=
  ⟨(c10_ordered_tournaments_cover ["X"] ["X", "Y"]).2.1 "Y" (by decide),
   (c10_ordered_tournaments_cover ["X"] ["X", "Y"]).2.2 (by decide) (by decide)
     "Y" (by decide),
   (c10_ordered_tournaments_cover ["X"] ["X", "Y"]).2.2 (by decide) (by decide)
     "X" (by decide)⟩

-- ── Lemmas about the live-feed position re-derivation ────────────────────────

theorem hasTMark_T (s : String) : hasTMark ("T" ++ s) = true := rfl

/-- The fields `assignLoop` never changes. -/
def stripAssign (p : LivePlayer) : String × String × Int × String :=
  (p.name, p.score, p.score_int, p.espn_status)

theorem map_score_of_map_strip {out l : List LivePlayer}
    (h : out.map stripAssign = l.map stripAssign) :
    out.map LivePlayer.score_int = l.map LivePlayer.score_int := by
  have h2 := congrArg (List.map
    (fun t : String × String × Int × String => t.2.2.1)) h
  simpa [List.map_map, Function.comp_def, stripAssign] using h2

theorem mem_score_exists {out l : List LivePlayer}
    (h : out.map stripAssign = l.map stripAssign) {q : LivePlayer} (hq : q ∈ out) :
    ∃ r ∈ l, r.score_int = q.score_int := by
  have hmem : q.score_int ∈ l.map LivePlayer.score_int := by
    rw [← map_score_of_map_strip h]
    exact List.mem_map_of_mem _ hq
  obtain ⟨r, hr, hre⟩ := List.mem_map.1 hmem
  exact ⟨r, hr, hre⟩

theorem nextTie_of_exists (p : LivePlayer) (rest : List LivePlayer)
    (hps : ∀ b ∈ rest, p.score_int ≤ b.score_int)
    (hrest : rest.Pairwise (fun a b => a.score_int ≤ b.score_int))
    (hex : ∃ r ∈ rest, r.score_int = p.score_int) :
    nextTie p rest = true := by
  obtain ⟨r, hr, hre⟩ := hex
  cases rest with
  | nil => cases hr
  | cons q0 rest' =>
    rw [nextTie]
    rcases List.mem_cons.1 hr with rfl | hr'
    · simp [hre]
    · have h1 : p.score_int ≤ q0.score_int := hps q0 (List.mem_cons_self _ _)
      have h2 : q0.score_int ≤ r.score_int := (List.pairwise_cons.1 hrest).1 r hr'
      rw [hre] at h2
      simp [le_antisymm h1 h2]

/-- Invariant carried by `assignLoop`'s accumulator: the previous score is a
lower bound for the remaining (sorted) players, the previous position is
below the running rank, and the previous display already carries the tie
marker whenever a remaining player still ties it. -/
def prevOK (prev : Option (Int × Nat × String)) (rank : Nat)
    (l : List LivePlayer) : Prop :=
  ∀ ps ppos pdisp, prev = some (ps, ppos, pdisp) →
    (∀ q ∈ l, ps ≤ q.score_int) ∧ ppos < rank ∧
    ((∃ q ∈ l, q.score_int = ps) → hasTMark pdisp = true)


theorem assignLoop_nil (prev : Option (Int × Nat × String)) (rank : Nat) :
    assignLoop prev rank [] = [] := by
  rcases prev with _ | ⟨ps, ppos, pdisp⟩ <;> rfl

theorem freshDisp_T (p : LivePlayer) (rest : List LivePlayer) (tiePrev : Bool)
    (rank : Nat) (h : nextTie p rest = true) :
    hasTMark (freshDisp p rest tiePrev rank) = true := by
  rw [freshDisp, h, Bool.true_or, if_pos rfl]
  exact hasTMark_T _

theorem some_triple_inj {ps ps' : Int} {ppos ppos' : Nat} {pdisp pdisp' : String}
    (h : (some (ps, ppos, pdisp) : Option (Int × Nat × String))
      = some (ps', ppos', pdisp')) :
    ps = ps' ∧ ppos = ppos' ∧ pdisp = pdisp' := by
  simpa using h

theorem assignLoop_spec (l : List LivePlayer) :
    ∀ (prev : Option (Int × Nat × String)) (rank : Nat),
    l.Pairwise (fun a b => a.score_int ≤ b.score_int) →
    prevOK prev rank l →
    ((assignLoop prev rank l).map stripAssign = l.map stripAssign) ∧
    (∀ q ∈ assignLoop prev rank l, q.position < rank + l.length) ∧
    (∀ ps ppos pdisp, prev = some (ps, ppos, pdisp) →
      ∀ q ∈ assignLoop prev rank l, q.score_int = ps →
        q.position = ppos ∧ q.position_display = pdisp) ∧
    (∀ p ∈ assignLoop prev rank l, ∀ q ∈ assignLoop prev rank l,
      p.score_int = q.score_int →
        p.position = q.position ∧ p.position_display = q.position_display) ∧
    (∀ q ∈ assignLoop prev rank l,
      (2 ≤ (l.map LivePlayer.score_int).count q.score_int ∨
        (∃ ppos pdisp, prev = some (q.score_int, ppos, pdisp))) →
      hasTMark q.position_display = true) := by
  induction l with
  | nil =>
    intro prev rank _ _
    rw [assignLoop_nil]
    refine ⟨rfl, ?_, ?_, ?_, ?_⟩
    · intro q hq; cases hq
    · intro ps ppos pdisp _ q hq; cases hq
    · intro a ha; cases ha
    · intro q hq; cases hq
  | cons p rest ih =>
    intro prev rank hsort hprev
    have hps : ∀ b ∈ rest, p.score_int ≤ b.score_int := (List.pairwise_cons.1 hsort).1
    have hrest : rest.Pairwise (fun a b => a.score_int ≤ b.score_int) :=
      (List.pairwise_cons.1 hsort).2
    cases prev with
    | some prv =>
      obtain ⟨ps, ppos, pdisp⟩ := prv
      obtain ⟨hle, hlt, hT⟩ := hprev ps ppos pdisp rfl
      by_cases htie : p.score_int = ps
      · -- tie with previous: copy position and display
        have hstep : assignLoop (some (ps, ppos, pdisp)) rank (p :: rest)
            = { p with position := ppos, position_display := pdisp } ::
              assignLoop (some (ps, ppos, pdisp)) (rank + 1) rest := by
          rw [assignLoop, if_pos htie]
        have hpOK : prevOK (some (ps, ppos, pdisp)) (rank + 1) rest := by
          intro ps' ppos' pdisp' heq
          obtain ⟨h4, h5, h6⟩ := some_triple_inj heq
          refine ⟨fun q hq => h4 ▸ hle q (List.mem_cons_of_mem p hq),
            h5 ▸ Nat.lt_succ_of_lt hlt, fun hex => ?_⟩
          obtain ⟨q, hq, hqe⟩ := hex
          exact h6 ▸ hT ⟨q, List.mem_cons_of_mem p hq, h4.symm ▸ hqe⟩
        obtain ⟨ihA, ihB, ihC, ihD, ihE⟩ :=
          ih (some (ps, ppos, pdisp)) (rank + 1) hrest hpOK
        rw [hstep]
        refine ⟨?_, ?_, ?_, ?_, ?_⟩
        · rw [List.map_cons, List.map_cons, ihA]
          rfl
        · intro q hq
          rcases List.mem_cons.1 hq with rfl | hq'
          · show ppos < rank + (p :: rest).length
            calc ppos < rank := hlt
              _ ≤ rank + (p :: rest).length := Nat.le_add_right _ _
          · have := ihB q hq'
            simp only [List.length_cons] at this ⊢
            omega
        · intro ps' ppos' pdisp' heq q hq hqs
          obtain ⟨h4, h5, h6⟩ := some_triple_inj heq
          rw [← h5, ← h6]
          rw [← h4] at hqs
          rcases List.mem_cons.1 hq with rfl | hq'
          · exact ⟨rfl, rfl⟩
          · exact ihC ps ppos pdisp rfl q hq' hqs
        · intro a ha b hb hab
          rcases List.mem_cons.1 ha with rfl | ha' <;> rcases List.mem_cons.1 hb with rfl | hb'
          · exact ⟨rfl, rfl⟩
          · have hbs : b.score_int = ps := by rw [← hab]; exact htie
            obtain ⟨hbp, hbd⟩ := ihC ps ppos pdisp rfl b hb' hbs
            exact ⟨hbp.symm, hbd.symm⟩
          · have has : a.score_int = ps := by
              rw [hab]; exact htie
            exact ihC ps ppos pdisp rfl a ha' has
          · exact ihD a ha' b hb' hab
        · intro q hq hcase
          rcases List.mem_cons.1 hq with rfl | hq'
          · exact hT ⟨p, List.mem_cons_self _ _, htie⟩
          · refine ihE q hq' ?_
            rcases hcase with hcnt | ⟨ppos', pdisp', heq⟩
            · by_cases hpq : p.score_int = q.score_int
              · have hqs : q.score_int = ps := by rw [← hpq]; exact htie
                exact Or.inr ⟨ppos, pdisp, by rw [hqs]⟩
              · left
                have hbe : (p.score_int == q.score_int) = false := by simpa using hpq
                rw [List.map_cons, List.count_cons, hbe] at hcnt
                simpa using hcnt
            · have hqs : q.score_int = ps := ((some_triple_inj heq).1).symm
              exact Or.inr ⟨ppos, pdisp, by rw [hqs]⟩
      · -- fresh score after a previous group
        have hstrict : ps < p.score_int :=
          lt_of_le_of_ne (hle p (List.mem_cons_self _ _)) (fun h => htie h.symm)
        have hTnew : (∃ r ∈ rest, r.score_int = p.score_int) →
            hasTMark (freshDisp p rest (p.score_int == ps) rank) = true :=
          fun hex => freshDisp_T p rest _ rank (nextTie_of_exists p rest hps hrest hex)
        have hstep : assignLoop (some (ps, ppos, pdisp)) rank (p :: rest)
            = { p with position := rank, position_display := freshDisp p rest (p.score_int == ps) rank } ::
              assignLoop (some (p.score_int, rank,
                freshDisp p rest (p.score_int == ps) rank)) (rank + 1) rest := by
          rw [assignLoop, if_neg htie]
        have hpOK : prevOK (some (p.score_int, rank,
            freshDisp p rest (p.score_int == ps) rank)) (rank + 1) rest := by
          intro ps' ppos' pdisp' heq
          obtain ⟨h4, h5, h6⟩ := some_triple_inj heq
          refine ⟨fun q hq => h4 ▸ hps q hq, h5 ▸ Nat.lt_succ_self rank, fun hex => ?_⟩
          obtain ⟨q, hq, hqe⟩ := hex
          exact h6 ▸ hTnew ⟨q, hq, h4.symm ▸ hqe⟩
        obtain ⟨ihA, ihB, ihC, ihD, ihE⟩ :=
          ih (some (p.score_int, rank, freshDisp p rest (p.score_int == ps) rank))
            (rank + 1) hrest hpOK
        rw [hstep]
        have hnops : ∀ q, q ∈ assignLoop (some (p.score_int, rank,
            freshDisp p rest (p.score_int == ps) rank)) (rank + 1) rest →
            q.score_int ≠ ps := by
          intro q hq hqs
          obtain ⟨r, hr, hre⟩ := mem_score_exists ihA hq
          have : p.score_int ≤ r.score_int := hps r hr
          rw [hre, hqs] at this
          exact absurd this (not_le_of_lt hstrict)
        refine ⟨?_, ?_, ?_, ?_, ?_⟩
        · rw [List.map_cons, List.map_cons, ihA]
          rfl
        · intro q hq
          rcases List.mem_cons.1 hq with rfl | hq'
          · show rank < rank + (p :: rest).length
            simp
          · have := ihB q hq'
            simp only [List.length_cons] at this ⊢
            omega
        · intro ps' ppos' pdisp' heq q hq hqs
          obtain ⟨h4, _, _⟩ := some_triple_inj heq
          rw [← h4] at hqs
          rcases List.mem_cons.1 hq with rfl | hq'
          · exact absurd hqs htie
          · exact absurd hqs (hnops q hq')
        · intro a ha b hb hab
          rcases List.mem_cons.1 ha with rfl | ha' <;> rcases List.mem_cons.1 hb with rfl | hb'
          · exact ⟨rfl, rfl⟩
          · obtain ⟨hbp, hbd⟩ := ihC p.score_int rank
              (freshDisp p rest (p.score_int == ps) rank) rfl b hb' hab.symm
            exact ⟨hbp.symm, hbd.symm⟩
          · exact ihC p.score_int rank
              (freshDisp p rest (p.score_int == ps) rank) rfl a ha' hab
          · exact ihD a ha' b hb' hab
        · intro q hq hcase
          rcases List.mem_cons.1 hq with rfl | hq'
          · rcases hcase with hcnt | ⟨ppos', pdisp', heq⟩
            · have hcnt2 : 2 ≤ ((p :: rest).map LivePlayer.score_int).count p.score_int :=
                hcnt
              have hmem2 : p.score_int ∈ rest.map LivePlayer.score_int := by
                by_contra hno
                have hzero : (rest.map LivePlayer.score_int).count p.score_int = 0 :=
                  List.count_eq_zero.2 hno
                have h1 : ((p :: rest).map LivePlayer.score_int).count p.score_int = 1 := by
                  rw [List.map_cons, List.count_cons, hzero]
                  simp
                rw [h1] at hcnt2
                omega
              obtain ⟨r, hr, hre⟩ := List.mem_map.1 hmem2
              exact hTnew ⟨r, hr, hre⟩
            · exact absurd ((some_triple_inj heq).1).symm htie
          · refine ihE q hq' ?_
            rcases hcase with hcnt | ⟨ppos', pdisp', heq⟩
            · by_cases hpq : p.score_int = q.score_int
              · exact Or.inr ⟨rank, freshDisp p rest (p.score_int == ps) rank,
                  by rw [← hpq]⟩
              · left
                have hbe : (p.score_int == q.score_int) = false := by simpa using hpq
                rw [List.map_cons, List.count_cons, hbe] at hcnt
                simpa using hcnt
            · exact absurd ((some_triple_inj heq).1).symm (hnops q hq')
    | none =>
      have hTnew : (∃ r ∈ rest, r.score_int = p.score_int) →
          hasTMark (freshDisp p rest false rank) = true :=
        fun hex => freshDisp_T p rest _ rank (nextTie_of_exists p rest hps hrest hex)
      have hstep : assignLoop none rank (p :: rest)
          = { p with position := rank, position_display := freshDisp p rest false rank } ::
            assignLoop (some (p.score_int, rank, freshDisp p rest false rank))
              (rank + 1) rest := by
        rw [assignLoop]
      have hpOK : prevOK (some (p.score_int, rank, freshDisp p rest false rank))
          (rank + 1) rest := by
        intro ps' ppos' pdisp' heq
        obtain ⟨h4, h5, h6⟩ := some_triple_inj heq
        refine ⟨fun q hq => h4 ▸ hps q hq, h5 ▸ Nat.lt_succ_self rank, fun hex => ?_⟩
        obtain ⟨q, hq, hqe⟩ := hex
        exact h6 ▸ hTnew ⟨q, hq, h4.symm ▸ hqe⟩
      obtain ⟨ihA, ihB, ihC, ihD, ihE⟩ :=
        ih (some (p.score_int, rank, freshDisp p rest false rank)) (rank + 1) hrest hpOK
      rw [hstep]
      refine ⟨?_, ?_, ?_, ?_, ?_⟩
      · rw [List.map_cons, List.map_cons, ihA]
        rfl
      · intro q hq
        rcases List.mem_cons.1 hq with rfl | hq'
        · show rank < rank + (p :: rest).length
          simp
        · have := ihB q hq'
          simp only [List.length_cons] at this ⊢
          omega
      · intro ps' ppos' pdisp' heq
        exact Option.noConfusion heq
      · intro a ha b hb hab
        rcases List.mem_cons.1 ha with rfl | ha' <;> rcases List.mem_cons.1 hb with rfl | hb'
        · exact ⟨rfl, rfl⟩
        · obtain ⟨hbp, hbd⟩ := ihC p.score_int rank
            (freshDisp p rest false rank) rfl b hb' hab.symm
          exact ⟨hbp.symm, hbd.symm⟩
        · exact ihC p.score_int rank (freshDisp p rest false rank) rfl a ha' hab
        · exact ihD a ha' b hb' hab
      · intro q hq hcase
        rcases List.mem_cons.1 hq with rfl | hq'
        · rcases hcase with hcnt | ⟨ppos', pdisp', heq⟩
          · have hcnt2 : 2 ≤ ((p :: rest).map LivePlayer.score_int).count p.score_int :=
              hcnt
            have hmem2 : p.score_int ∈ rest.map LivePlayer.score_int := by
              by_contra hno
              have hzero : (rest.map LivePlayer.score_int).count p.score_int = 0 :=
                List.count_eq_zero.2 hno
              have h1 : ((p :: rest).map LivePlayer.score_int).count p.score_int = 1 := by
                rw [List.map_cons, List.count_cons, hzero]
                simp
              rw [h1] at hcnt2
              omega
            obtain ⟨r, hr, hre⟩ := List.mem_map.1 hmem2
            exact hTnew ⟨r, hr, hre⟩
          · exact Option.noConfusion heq
        · refine ihE q hq' ?_
          rcases hcase with hcnt | ⟨ppos', pdisp', heq⟩
          · by_cases hpq : p.score_int = q.score_int
            · exact Or.inr ⟨rank, freshDisp p rest false rank, by rw [← hpq]⟩
            · left
              have hbe : (p.score_int == q.score_int) = false := by simpa using hpq
              rw [List.map_cons, List.count_cons, hbe] at hcnt
              simpa using hcnt
          · exact Option.noConfusion heq

/-- C8 counterexample: the claim says a non-numeric score sorts after all
numeric scores, but the sentinel is the fixed value 9999, so the numeric
score "10000" sorts after the non-numeric score "WD". -/
theorem c8_counterexample_sentinel :
    scoreNumeric "10000" = true ∧ scoreNumeric "WD" = false ∧
    score_to_int "WD" < score_to_int "10000" := by
  decide

/-- C8 (amended): non-numeric scores map to the sentinel 9999, which sorts
after every numeric score below the sentinel; re-derived positions give
equal-score active players the same position and display, with a tie marker
whenever the score is shared; and every cut/WD player sits after all active
players at the single bottom position, labelled CUT or WD when its display
was empty. -/
theorem c8_amended_position_rederivation (players : List LivePlayer) :
    (∀ s, scoreNumeric s = false → score_to_int s = 9999) ∧
    (∀ s t, scoreNumeric s = true → score_to_int s < 9999 → scoreNumeric t = false →
      score_to_int s < score_to_int t) ∧
    List.Pairwise (fun a b => a.score_int ≤ b.score_int) (assignedActive players) ∧
    (∀ p ∈ assignedActive players, ∀ q ∈ assignedActive players,
      p.score_int = q.score_int →
        p.position = q.position ∧ p.position_display = q.position_display) ∧
    (∀ p ∈ assignedActive players,
      2 ≤ ((assignedActive players).map LivePlayer.score_int).count p.score_int →
      hasTMark p.position_display = true) ∧
    (∀ p ∈ bottomInactive players, p.position = (activeOf players).length + 1) ∧
    (∀ q ∈ assignedActive players, q.position < (activeOf players).length + 1) ∧
    (recompute_positions players = assignedActive players ++ bottomInactive players) ∧
    (∀ p ∈ players, p.espn_status ≠ "active" → p.position_display = "" →
      ({ p with position := (activeOf players).length + 1, position_display := if p.espn_status == "cut" then "CUT" else "WD" } : LivePlayer)
        ∈ bottomInactive players) := by
  have hsent : ∀ s, scoreNumeric s = false → score_to_int s = 9999 := by
    intro s hs
    have hcond : ¬ (pyStrip s = "E" ∨ pyStrip s = "e" ∨ pyStrip s = "EVEN"
        ∨ pyStrip s = "even" ∨ pyStrip s = "0") := by
      rintro (h | h | h | h | h) <;> simp [scoreNumeric, h] at hs
    have hnone : pyInt? (pyStrip s) = none := by
      cases hm : pyInt? (pyStrip s) with
      | none => rfl
      | some n => simp [scoreNumeric, hm] at hs
    rw [score_to_int, if_neg hcond, hnone]
  obtain ⟨hA, hB, _hC, hD, hE⟩ := assignLoop_spec
    (sortStable (fun p => p.score_int) (activeOf players)) none 1
    (sortStable_pairwise _ _) (fun _ _ _ h => Option.noConfusion h)
  have hmapscore : (assignedActive players).map LivePlayer.score_int
      = (sortStable (fun p => p.score_int) (activeOf players)).map LivePlayer.score_int :=
    map_score_of_map_strip hA
  have hlen : (sortStable (fun p : LivePlayer => p.score_int) (activeOf players)).length
      = (activeOf players).length :=
    (sortStable_perm _ (activeOf players)).length_eq
  refine ⟨hsent, ?_, ?_, hD, ?_, ?_, ?_, rfl, ?_⟩
  · intro s t _ hlt ht
    rw [hsent t ht]
    exact hlt
  · have hsorted : ((sortStable (fun p : LivePlayer => p.score_int)
        (activeOf players)).map LivePlayer.score_int).Pairwise (· ≤ ·) :=
      List.pairwise_map.2 (sortStable_pairwise _ _)
    have h2 : ((assignedActive players).map LivePlayer.score_int).Pairwise (· ≤ ·) := by
      rw [hmapscore]
      exact hsorted
    exact List.pairwise_map.1 h2
  · intro p hp hcnt
    refine hE p hp (Or.inl ?_)
    rw [← hmapscore]
    exact hcnt
  · intro p hp
    rw [bottomInactive] at hp
    obtain ⟨q, _, rfl⟩ := List.mem_map.1 hp
    rfl
  · intro q hq
    have hpos := hB q hq
    rw [hlen] at hpos
    omega
  · intro p hp hact hdisp
    rw [bottomInactive]
    refine List.mem_map.2 ⟨p, List.mem_filter.2 ⟨hp, ?_⟩, ?_⟩
    · simp [hact]
    · rw [hdisp]
      simp

/-- C8 witness: on a five-player live field (two actives tied at -10, one
active at even par, one cut and one withdrawn player) the tied players
share position 1 with display "T1", the even-par player takes position 3,
the sentinel facts hold, and the cut/WD players sit at position 4 labelled
CUT and WD. -/
theorem c8_amended_position_rederivation_witness :
    score_to_int "WD" = 9999 ∧
    score_to_int "-10" < score_to_int "WD" ∧
    (let p2 : LivePlayer := ⟨"P2", 1, "T1", "-10", -10, "active"⟩
     let p3 : LivePlayer := ⟨"P3", 1, "T1", "-10", -10, "active"⟩
     p2.position = p3.position ∧ p2.position_display = p3.position_display) ∧
    hasTMark (⟨"P2", 1, "T1", "-10", -10, "active"⟩ : LivePlayer).position_display = true ∧
    (⟨"P4", 4, "CUT", "+3", 3, "cut"⟩ : LivePlayer).position = (activeOf liveExample).length + 1 ∧
    ((⟨"P5", 4, "WD", "", 9999, "wd"⟩ : LivePlayer) ∈ bottomInactive liveExample) :=
  ⟨(c8_amended_position_rederivation liveExample).1 "WD" (by decide),
   (c8_amended_position_rederivation liveExample).2.1 "-10" "WD" (by decide) (by decide)
     (by decide),
   (c8_amended_position_rederivation liveExample).2.2.2.1
     ⟨"P2", 1, "T1", "-10", -10, "active"⟩ (by decide)
     ⟨"P3", 1, "T1", "-10", -10, "active"⟩ (by decide) (by decide),
   (c8_amended_position_rederivation liveExample).2.2.2.2.1
     ⟨"P2", 1, "T1", "-10", -10, "active"⟩ (by decide) (by decide),
   (c8_amended_position_rederivation liveExample).2.2.2.2.2.1
     ⟨"P4", 4, "CUT", "+3", 3, "cut"⟩ (by decide),
   (c8_amended_position_rederivation liveExample).2.2.2.2.2.2.2.2
     ⟨"P5", 999, "", "", 9999, "wd"⟩ (by decide) (by decide) (by decide)⟩
